import Mathlib

set_option autoImplicit false

/-!
Verification of the natural-language specification of the
`quasiben/rapids-examples` notebooks against their code.

The repository's own code falls into two groups:

* glue functions defined inside the notebooks (`clean`,
  `drop_empty_partitions`, `day_of_the_week_kernel`, `add_features`,
  `smooth_gpu` / `smooth`), which are embedded here directly from the
  notebook source; and
* the task-submission façade (`client.submit`, `wait`,
  `fire_and_forget`) whose behaviour is implemented by the external
  distributed scheduler, not by this repository.  Those parts are
  modelled from the specification's description (see the `Facade`
  namespace); each such definition is marked `Modelled from the spec:`.
-/

namespace Facade

/-- Modelled from the spec: an argument passed to `submit` is either an
already-resolved literal value or another Task's handle; a handle
argument establishes a dependency edge.  The missing code is the external
scheduler's argument representation. -/
inductive Arg where
  | lit (v : Int)
  | handle (id : Nat)
deriving DecidableEq, Repr

/-- Modelled from the spec: a Task is "a function reference plus its
already-resolved or still-pending arguments".  Values are modelled as
integers. -/
structure TaskSpec where
  fn : List Int → Int
  args : List Arg

/-- Modelled from the spec: the set of submitted tasks; a handle is the
task's index in submission order (identity is per-submission, not
content-addressed). -/
abbrev TaskGraph := List TaskSpec

/-- Modelled from the spec: `submit(fn, *args)` returns a fresh Task
handle immediately; no memoization, the new task is simply appended. -/
def submit (g : TaskGraph) (fn : List Int → Int) (args : List Arg) : TaskGraph × Nat :=
  (g ++ [⟨fn, args⟩], g.length)

/-- Modelled from the spec: Task lifecycle "created on submission,
transitions to running when a worker claims it, transitions to finished
(value available) or failed (error captured)". -/
inductive Status where
  | pending
  | running
  | finished (v : Int)
  | failed
deriving DecidableEq, Repr

/-- The dynamic state of the pool: the status of every task handle. -/
abbrev StatusMap := Nat → Status

/-- Every task starts out pending. -/
def initStatus : StatusMap := fun _ => Status.pending

/-- Update the status of one task. -/
def setStat (σ : StatusMap) (i : Nat) (st : Status) : StatusMap :=
  fun j => if j = i then st else σ j

def defaultTask : TaskSpec := ⟨fun _ => 0, []⟩

def argsOf (g : TaskGraph) (i : Nat) : List Arg :=
  (g.getD i defaultTask).args

def fnOf (g : TaskGraph) (i : Nat) : List Int → Int :=
  (g.getD i defaultTask).fn

/-- The handles a task depends on: exactly its handle-arguments. -/
def depsOf (g : TaskGraph) (i : Nat) : List Nat :=
  (argsOf g i).filterMap (fun a => match a with | .lit _ => none | .handle j => some j)

def isFinished : Status → Bool
  | .finished _ => true
  | _ => false

/-- Resolve an argument against the current statuses: a literal is
itself, a handle is the finished value of the upstream task (the step
relation only runs a task once all its handle-arguments are finished). -/
def resolve (σ : StatusMap) : Arg → Int
  | .lit v => v
  | .handle j => match σ j with | .finished v => v | _ => 0

/-- Scheduler events: a task begins executing, finishes with a value, or
fails. -/
inductive Ev where
  | start (i : Nat)
  | finishOk (i : Nat)
  | fail (i : Nat)
deriving DecidableEq, Repr

def evTask : Ev → Nat
  | .start i => i
  | .finishOk i => i
  | .fail i => i

/-- Modelled from the spec: one scheduler step.  A task may begin
executing only when it is pending and every task it depends on has
finished successfully; a running task may finish with the value of its
function applied to its resolved arguments, or fail (the function
raised).  Two tasks with no shared dependency may be scheduled in any
order: the relation is nondeterministic. -/
inductive Step (g : TaskGraph) : StatusMap → Ev → StatusMap → Prop where
  | start (σ : StatusMap) (i : Nat) :
      i < g.length → σ i = .pending →
      (∀ j ∈ depsOf g i, isFinished (σ j) = true) →
      Step g σ (.start i) (setStat σ i .running)
  | finishOk (σ : StatusMap) (i : Nat) :
      σ i = .running →
      Step g σ (.finishOk i) (setStat σ i (.finished (fnOf g i ((argsOf g i).map (resolve σ)))))
  | fail (σ : StatusMap) (i : Nat) :
      σ i = .running →
      Step g σ (.fail i) (setStat σ i .failed)

/-- A finite execution: a list of events driving the statuses from `σ`
to `σ'`. -/
inductive ExecTr (g : TaskGraph) : StatusMap → List Ev → StatusMap → Prop where
  | refl (σ : StatusMap) : ExecTr g σ [] σ
  | tail {σ : StatusMap} {tr : List Ev} {σ' : StatusMap} {e : Ev} {σ'' : StatusMap} :
      ExecTr g σ tr σ' → Step g σ' e σ'' → ExecTr g σ (tr ++ [e]) σ''

/-- Modelled from the spec: `wait(tasks)` "returns a summary
distinguishing which finished vs failed" — each requested handle is
reported with its own status; the report is a total function (it never
raises on behalf of other tasks). -/
def waitReport (σ : StatusMap) (hs : List Nat) : List (Nat × Status) :=
  hs.map (fun i => (i, σ i))

/-- Modelled from the spec: caller-side state — the submitted graph and
which handles the caller still tracks or has detached. -/
structure ClientState where
  graph : TaskGraph
  tracked : List Nat
  detached : List Nat

/-- Modelled from the spec: `fire_and_forget(task)` detaches a Task from
caller-side reference tracking; the pool retains it until completion.
It is a pure function of the caller state: it neither reads nor writes
any task's status. -/
def fire_and_forget (c : ClientState) (t : Nat) : ClientState :=
  { c with tracked := c.tracked.erase t, detached := t :: c.detached }

/-- Transitive dependency: `DependsOn g i j` means task `i` depends,
directly or through intermediate tasks, on task `j`. -/
inductive DependsOn (g : TaskGraph) : Nat → Nat → Prop where
  | direct {i j : Nat} : j ∈ depsOf g i → DependsOn g i j
  | trans {i j k : Nat} : j ∈ depsOf g i → DependsOn g j k → DependsOn g i k

/-- How many times a trace starts task `i`. -/
def countStarts (tr : List Ev) (i : Nat) : Nat :=
  tr.count (Ev.start i)

/-- The `f(x) = x + 1` of the spec's example scenario. -/
def fPlusOne : List Int → Int := fun l => l.getD 0 0 + 1

/-- The `g(y) = y * 2` of the spec's example scenario. -/
def gTimesTwo : List Int → Int := fun l => l.getD 0 0 * 2

/-- First submission of the example scenario: `f` with literal input `1`. -/
def subF : TaskGraph × Nat := submit [] fPlusOne [Arg.lit 1]

/-- Second submission: `g` with the first submission's handle as argument. -/
def subG : TaskGraph × Nat := submit subF.1 gTimesTwo [Arg.handle subF.2]

/-- The two-task graph of the example scenario. -/
def exampleGraph : TaskGraph := subG.1

/-!
A concrete instance of the notebook's streaming pipeline
`gather_from_detector → smooth → np.fft.fft2 → save`: each later task
receives the handle of the previous one as an argument.  The integer
functions stand in for the array-valued stages, whose values the
dependency claims never inspect.
-/

def pipe0 : TaskGraph × Nat := submit [] (fun _ => 0) []
def pipe1 : TaskGraph × Nat := submit pipe0.1 (fun l => l.getD 0 0) [Arg.handle pipe0.2]
def pipe2 : TaskGraph × Nat := submit pipe1.1 (fun l => l.getD 0 0) [Arg.handle pipe1.2]
def pipe3 : TaskGraph × Nat := submit pipe2.1 (fun _ => 0) [Arg.handle pipe2.2, Arg.lit 0]

def pipelineGraph : TaskGraph := pipe3.1

/-- Statuses along one concrete run of the pipeline: task 0 starts. -/
def pipeσa : StatusMap := setStat initStatus 0 .running

/-- ... task 0 finishes. -/
def pipeσb : StatusMap :=
  setStat pipeσa 0 (.finished (fnOf pipelineGraph 0 ((argsOf pipelineGraph 0).map (resolve pipeσa))))

/-- ... task 1 starts. -/
def pipeσc : StatusMap := setStat pipeσb 1 .running

/-- ... task 1 finishes. -/
def pipeσd : StatusMap :=
  setStat pipeσc 1 (.finished (fnOf pipelineGraph 1 ((argsOf pipelineGraph 1).map (resolve pipeσc))))

/-!
A concrete failure scenario: task 0 fails, task 1 depends on it, task 2
is an unrelated sibling.
-/

def fail0 : TaskGraph × Nat := submit [] (fun _ => 0) []
def fail1 : TaskGraph × Nat := submit fail0.1 (fun l => l.getD 0 0) [Arg.handle fail0.2]
def fail2 : TaskGraph × Nat := submit fail1.1 (fun _ => 7) []

def failGraph : TaskGraph := fail2.1

/-- Statuses along one run: task 0 starts. -/
def failσa : StatusMap := setStat initStatus 0 .running

/-- ... task 0 fails. -/
def failσb : StatusMap := setStat failσa 0 .failed

/-- ... the sibling task 2 starts. -/
def failσc : StatusMap := setStat failσb 2 .running

/-- ... the sibling task 2 finishes. -/
def failσd : StatusMap :=
  setStat failσc 2 (.finished (fnOf failGraph 2 ((argsOf failGraph 2).map (resolve failσc))))

end Facade

namespace Taxi

/-!
Embedding of the notebook-defined glue functions of
`src/NYCTaxi-E2E.ipynb`.

A dataframe partition is a list of named columns.  A cell is
`Option String`: `none` is a null, `some s` carries the cell's payload.
The cudf dtype casts (`astype`) are external library calls; since the
claims about `clean` concern column names, dtype tags and null
replacement, a cast changes the column's dtype tag and carries the
payload through, and `fillna v` replaces nulls by the payload of `v`
(`-1` is carried as the payload `"-1"`, both for `str.fillna('-1')` and
for `fillna(-1)`).
-/

structure Column where
  name : String
  dtype : String
  data : List (Option String)
deriving DecidableEq, Repr

/-- A dataframe partition: its columns, in order. -/
abbrev DFPart := List Column

/-- The column-rename mapping built in the notebook. -/
def remap : List (String × String) :=
  [("tpep_pickup_datetime", "pickup_datetime"),
   ("tpep_dropoff_datetime", "dropoff_datetime"),
   ("ratecodeid", "rate_code")]

/-- The list of columns and dtypes the dataframe must have. -/
def must_haves : List (String × String) :=
  [("pickup_datetime", "datetime64[ms]"),
   ("dropoff_datetime", "datetime64[ms]"),
   ("passenger_count", "int32"),
   ("trip_distance", "float32"),
   ("pickup_longitude", "float32"),
   ("pickup_latitude", "float32"),
   ("rate_code", "int32"),
   ("dropoff_longitude", "float32"),
   ("dropoff_latitude", "float32"),
   ("fare_amount", "float32")]

/-- Is `pat` a leading segment of `l`? -/
def leadsWith : List Char → List Char → Bool
  | [], _ => true
  | _ :: _, [] => false
  | a :: as, b :: bs => a = b && leadsWith as bs

/-- Does `l` contain `pat` as a contiguous segment?  Embeds Python's
`pat in str(dtype)` substring test. -/
def hasSegment (pat : List Char) : List Char → Bool
  | [] => leadsWith pat []
  | c :: rest => leadsWith pat (c :: rest) || hasSegment pat rest

/-- `containsStr s pat` embeds Python's `pat in s`. -/
def containsStr (s pat : String) : Bool :=
  hasSegment pat.data s.data

/-- `col.strip()`: remove leading and trailing spaces (the header
whitespace seen in the data is plain spaces). -/
def stripChars (l : List Char) : List Char :=
  ((l.dropWhile (fun c => c = ' ')).reverse.dropWhile (fun c => c = ' ')).reverse

/-- `col.strip().lower()` from the first rename of `clean`. -/
def stripLower (s : String) : String :=
  ⟨(stripChars s.data).map Char.toLower⟩

/-- `df_part.rename(remap)`: a column named in the mapping takes the
mapped name, others keep theirs. -/
def renameCol (m : List (String × String)) (c : Column) : Column :=
  { c with name := (m.lookup c.name).getD c.name }

/-- `fillna(v)` on one cell: a null becomes the fill payload, any other
cell is unchanged. -/
def fillCell (v : String) : Option String → Option String
  | none => some v
  | some s => some s

/-- The numeric downcast of the loop's final branch: first
`if 'int' in str(dtype): astype('int32')`, then — against the possibly
already updated dtype — `if 'float' in str(dtype): astype('float32')`. -/
def downcast32 (dt : String) : String :=
  let d1 := if containsStr dt "int" then "int32" else dt
  if containsStr d1 "float" then "float32" else d1

/-- One iteration of the `for col in df_part.columns` loop of `clean`,
acting on the single column it addresses (`none` means the column is
dropped).  The branch structure is the notebook's: drop anything not in
`must_haves`; an `object` column named `pickup_datetime` or
`dropoff_datetime` is cast to `datetime64[ms]`; any other `object`
column is `str.fillna('-1')`-ed then cast to `float32`; otherwise the
dtype is downcast with `downcast32` and nulls are filled with `-1`. -/
def processCol (mh : List (String × String)) (c : Column) : Option Column :=
  if (mh.lookup c.name).isNone then none
  else if c.dtype = "object" ∧ (c.name = "pickup_datetime" ∨ c.name = "dropoff_datetime") then
    some { c with dtype := "datetime64[ms]" }
  else if c.dtype = "object" then
    some { c with dtype := "float32", data := c.data.map (fillCell "-1") }
  else
    some { c with dtype := downcast32 c.dtype, data := c.data.map (fillCell "-1") }

/-- The strip-lowercase rename followed by the `remap` rename, the two
renames `clean` performs before its column loop. -/
def renamedCols (df_part : DFPart) (m : List (String × String)) : DFPart :=
  (df_part.map (fun c => { c with name := stripLower c.name })).map (renameCol m)

/-- The notebook's `clean(df_part, remap, must_haves)`.  The column loop
iterates over the column list fixed at loop entry and each iteration
only drops or rewrites the column it addresses (cudf column names are
unique), so it is the `filterMap` of `processCol` over the renamed
columns. -/
def clean (df_part : DFPart) (m mh : List (String × String)) : DFPart :=
  (renamedCols df_part m).filterMap (processCol mh)

/-!
The train/test split and the empty-partition filtering of
`src/NYCTaxi-E2E.ipynb`.  For this part of the notebook a distributed
dataframe is its list of partitions and a row is reduced to the one
field the split logic reads, its `day` value.
-/

/-- A distributed dataframe: partitions of rows, each row carried as its
`day` value. -/
abbrev DDF := List (List Int)

/-- `df.partitions[mask]`: keep exactly the partitions whose mask entry
is `true`, in order. -/
def maskSelect {α : Type} : List α → List Bool → List α
  | [], _ => []
  | _ :: _, [] => []
  | p :: ps, b :: bs => if b then p :: maskSelect ps bs else maskSelect ps bs

/-- The notebook's `drop_empty_partitions`: compute per-partition
lengths, build the boolean mask `length > 0`, select by the mask. -/
def drop_empty_partitions (df : DDF) : DDF :=
  let lengths := df.map List.length
  let nonempty := lengths.map (fun l => decide (0 < l))
  maskSelect df nonempty

/-- `taxi_df.query('day < 25')`: a per-partition row filter, keeping the
partition structure. -/
def queryDayLt (df : DDF) (k : Int) : DDF :=
  df.map (fun p => p.filter (fun d => decide (d < k)))

/-- `taxi_df.query('day >= 25')`. -/
def queryDayGe (df : DDF) (k : Int) : DDF :=
  df.map (fun p => p.filter (fun d => decide (k ≤ d)))

/-- The training dataframe handed to `dxgb_gpu.train`:
`X_train = taxi_df.query('day < 25').persist()` — no empty-partition
filtering is applied on this path. -/
def X_train_input (taxi_df : DDF) : DDF :=
  queryDayLt taxi_df 25

/-- The test dataframe handed to `dxgb_gpu.predict`:
`X_test = drop_empty_partitions(taxi_df.query('day >= 25').persist())`. -/
def X_test_input (taxi_df : DDF) : DDF :=
  drop_empty_partitions (queryDayGe taxi_df 25)

/-!
The `day_of_the_week_kernel` and the `is_weekend` flag of
`add_features`.  Python's `//` is floor division (`Int.fdiv`) and
Python's `%` with positive modulus yields a result in `[0, modulus)`
(`Int.emod`); `math.floor(m * 2.6)` is `⌊26 * m / 10⌋ = (26 * m).fdiv 10`.
-/

/-- The per-row body of `day_of_the_week_kernel`. -/
def day_of_the_week (d m y : Int) : Int :=
  let shift : Int := if m < 3 then m else 0
  let bigY : Int := y - (if m < 3 then 1 else 0)
  let yy : Int := bigY - 2000
  let c : Int := 20
  let mm : Int := m + shift + 1
  (d + (26 * mm).fdiv 10 + yy + yy.fdiv 4 + c.fdiv 4 - 2 * c).emod 7

/-- The `for i, (d_1, m_1, y_1) in enumerate(zip(day, month, year))`
loop shape: one output element per zipped triple. -/
def zip3Map (f : Int → Int → Int → Int) : List Int → List Int → List Int → List Int
  | a :: as, b :: bs, c :: cs => f a b c :: zip3Map f as bs cs
  | _, _, _ => []

/-- The kernel loop: one `day_of_week` output element per zipped
`(day, month, year)` triple. -/
def day_of_the_week_kernel (day month year : List Int) : List Int :=
  zip3Map day_of_the_week day month year

/-- The derived flag of `add_features`:
`(df['day_of_week'] < 2).astype(np.int32)`. -/
def is_weekend (dow : Int) : Int :=
  if dow < 2 then 1 else 0

end Taxi

namespace Streaming

/-!
Embedding of `smooth_gpu` / `smooth` from `src/umap-cuml.ipynb`.  The
CUDA grid launches a thread per index pair `(i, j)`; the thread writes
`out[i, j]` only when `1 <= i < n - 1` and `1 <= j < m - 1`.  `smooth`
allocates `out` with `cupy.empty_like(x)`, so any cell the kernel does
not write keeps whatever the uninitialized allocation held: the
allocation's prior contents are an explicit argument `alloc`.  Array
elements are carried as rationals; `// 9` is floor division.
-/

/-- The nine-cell neighbourhood sum around `(i, j)`. -/
def sum9 (x : Nat → Nat → ℚ) (i j : Nat) : ℚ :=
  x (i - 1) (j - 1) + x (i - 1) j + x (i - 1) (j + 1) +
  x i (j - 1) + x i j + x i (j + 1) +
  x (i + 1) (j - 1) + x (i + 1) j + x (i + 1) (j + 1)

/-- The kernel: every interior cell of `out` is overwritten with
`sum // 9`; every other cell keeps `out`'s prior value. -/
def smooth_gpu (n m : Nat) (x out : Nat → Nat → ℚ) : Nat → Nat → ℚ :=
  fun i j =>
    if 1 ≤ i ∧ i < n - 1 ∧ 1 ≤ j ∧ j < m - 1 then
      ((⌊sum9 x i j / 9⌋ : ℤ) : ℚ)
    else out i j

/-- `smooth(x)`: run the kernel over an `empty_like` allocation whose
prior contents are `alloc`. -/
def smooth (n m : Nat) (x alloc : Nat → Nat → ℚ) : Nat → Nat → ℚ :=
  smooth_gpu n m x alloc

/-- The exact 3×3 neighbourhood average, for comparison with what the
kernel writes. -/
def neighborhoodAverage (x : Nat → Nat → ℚ) (i j : Nat) : ℚ :=
  sum9 x i j / 9

end Streaming

namespace Persist

/-!
Modelled from the spec: the trained model artifact is "serialized via a
generic object-pickling mechanism to a remote object-storage bucket, and
later deserialized from the same location — the serialization format
itself is generic and opaque to this repository" (the notebook calls
`dill.dump` / `dill.load` over a `gcsfs` file).  The pickling mechanism
is modelled as an injective byte encoding with its decoder, the object
store as a path-keyed map of byte strings.
-/

/-- A trained model object, carried as an opaque parameter blob. -/
structure Model where
  params : List Int
deriving DecidableEq, Repr

/-- Encode one integer as a natural (the usual sign interleaving). -/
def encInt (z : Int) : Nat :=
  if 0 ≤ z then 2 * z.toNat else 2 * (-z).toNat - 1

/-- Decode one interleaved natural back to an integer. -/
def decInt (n : Nat) : Int :=
  if n % 2 = 0 then (n / 2 : Int) else -(((n + 1) / 2 : Nat) : Int)

/-- Modelled from the spec: `dill.dump`, pickling the model to bytes. -/
def dill_dump (m : Model) : List Nat :=
  m.params.map encInt

/-- Modelled from the spec: `dill.load`, unpickling bytes to a model. -/
def dill_load (bs : List Nat) : Model :=
  ⟨bs.map decInt⟩

/-- Modelled from the spec: the remote object store, a path-keyed map of
byte strings. -/
abbrev ObjectStore := List (String × List Nat)

/-- Writing a byte string at a path (`fs.open(path, 'wb')` + write). -/
def fsWrite (fs : ObjectStore) (path : String) (bs : List Nat) : ObjectStore :=
  (path, bs) :: fs

/-- Reading the byte string at a path (`fs.open(path, 'rb')` + read). -/
def fsRead (fs : ObjectStore) (path : String) : List Nat :=
  (fs.lookup path).getD []

def bucket : String := "rapidsai-test-1/"

/-- The notebook's save cell: dump the trained model to
`bucket + 'trained_model.dill'`. -/
def save_trained_model (fs : ObjectStore) (m : Model) : ObjectStore :=
  fsWrite fs (bucket ++ "trained_model.dill") (dill_dump m)

/-- The notebook's reload cell: load the model back from the same
location. -/
def load_trained_model (fs : ObjectStore) : Model :=
  dill_load (fsRead fs (bucket ++ "trained_model.dill"))

/-- `Y_test['squared_error'] = (Y_test['prediction'] - Y_test['fare_amount'])**2`. -/
def squared_errors (preds fares : List ℚ) : List ℚ :=
  List.zipWith (fun p f => (p - f) ^ 2) preds fares

/-- `Y_test.squared_error.mean()`; the notebook's RMSE is the square
root of this value, so equal mean squared errors give equal RMSE. -/
def mean_squared_error (preds fares : List ℚ) : ℚ :=
  (squared_errors preds fares).sum / (squared_errors preds fares).length

end Persist


namespace Facade

/-- Updating a task's status changes that task's entry. -/
theorem setStat_self (σ : StatusMap) (i : Nat) (st : Status) : setStat σ i st i = st := by
  simp [setStat]

/-- Updating a task's status leaves every other task's entry alone. -/
theorem setStat_ne (σ : StatusMap) (i : Nat) (st : Status) {j : Nat} (h : j ≠ i) :
    setStat σ i st j = σ j := by
  simp [setStat, h]

/-- A step only changes the status of the task its event names. -/
theorem step_other {g : TaskGraph} {σ : StatusMap} {e : Ev} {σmid : StatusMap}
    (hs : Step g σ e σmid) {j : Nat} (hj : j ≠ evTask e) : σmid j = σ j := by
  cases hs with
  | start i _ _ _ => exact setStat_ne σ i _ (by simpa [evTask] using hj)
  | finishOk i _ => exact setStat_ne σ i _ (by simpa [evTask] using hj)
  | fail i _ => exact setStat_ne σ i _ (by simpa [evTask] using hj)

/-- A finished task stays finished with the same value across one step. -/
theorem step_finished_persists {g : TaskGraph} {σ : StatusMap} {e : Ev} {σmid : StatusMap}
    (hs : Step g σ e σmid) {i : Nat} {v : Int} (h : σ i = .finished v) : σmid i = .finished v := by
  cases hs with
  | start i0 _ hpend _ =>
    have hne : i ≠ i0 := by intro he; rw [he, hpend] at h; cases h
    rw [setStat_ne σ i0 _ hne]; exact h
  | finishOk i0 hrun =>
    have hne : i ≠ i0 := by intro he; rw [he, hrun] at h; cases h
    rw [setStat_ne σ i0 _ hne]; exact h
  | fail i0 hrun =>
    have hne : i ≠ i0 := by intro he; rw [he, hrun] at h; cases h
    rw [setStat_ne σ i0 _ hne]; exact h

/-- A finished task stays finished with the same value across any
execution. -/
theorem exec_finished_persists {g : TaskGraph} {σ : StatusMap} {tr : List Ev} {σmid : StatusMap}
    (hex : ExecTr g σ tr σmid) {i : Nat} {v : Int} (h : σ i = .finished v) : σmid i = .finished v := by
  induction hex with
  | refl => exact h
  | tail _ hs ih => exact step_finished_persists hs ih

/-- Key invariant: in any state reached from the all-pending initial
state, a task that is no longer pending has every one of its
dependencies finished successfully. -/
theorem started_deps_finished {g : TaskGraph} {tr : List Ev} {σ : StatusMap}
    (hex : ExecTr g initStatus tr σ) :
    ∀ i, σ i ≠ .pending → ∀ j ∈ depsOf g i, isFinished (σ j) = true := by
  induction hex with
  | refl => intro i hi; exact absurd rfl hi
  | tail hex' hs ih =>
    intro i hi j hj
    rename_i σmid e σcur
    cases hs with
    | start i0 hlen hpend hdeps =>
      by_cases hii : i = i0
      · subst hii
        have hfin := hdeps j hj
        have hji : j ≠ i := by
          intro he; rw [he, hpend] at hfin; cases hfin
        rw [setStat_ne σmid i _ hji]; exact hfin
      · have hi' : σmid i ≠ .pending := by
          rw [setStat_ne σmid i0 _ hii] at hi; exact hi
        have hfin := ih i hi' j hj
        have hji : j ≠ i0 := by
          intro he; rw [he, hpend] at hfin; cases hfin
        rw [setStat_ne σmid i0 _ hji]; exact hfin
    | finishOk i0 hrun =>
      by_cases hii : i = i0
      · subst hii
        have hfin := ih i (by rw [hrun]; intro h; cases h) j hj
        have hji : j ≠ i := by
          intro he; rw [he, hrun] at hfin; cases hfin
        rw [setStat_ne σmid i _ hji]; exact hfin
      · have hi' : σmid i ≠ .pending := by
          rw [setStat_ne σmid i0 _ hii] at hi; exact hi
        have hfin := ih i hi' j hj
        by_cases hji : j = i0
        · subst hji; rw [setStat_self]; rfl
        · rw [setStat_ne σmid i0 _ hji]; exact hfin
    | fail i0 hrun =>
      by_cases hii : i = i0
      · subst hii
        have hfin := ih i (by rw [hrun]; intro h; cases h) j hj
        have hji : j ≠ i := by
          intro he; rw [he, hrun] at hfin; cases hfin
        rw [setStat_ne σmid i _ hji]; exact hfin
      · have hi' : σmid i ≠ .pending := by
          rw [setStat_ne σmid i0 _ hii] at hi; exact hi
        have hfin := ih i hi' j hj
        have hji : j ≠ i0 := by
          intro he; rw [he, hrun] at hfin; cases hfin
        rw [setStat_ne σmid i0 _ hji]; exact hfin

end Facade

namespace Facade

/-- A task that begins pending is started at most once along any trace,
and not at all while it is still pending. -/
theorem countStarts_le_one {g : TaskGraph} {σ0 : StatusMap} {tr : List Ev} {σ : StatusMap}
    (hex : ExecTr g σ0 tr σ) (i : Nat) (h0 : σ0 i = .pending) :
    (σ i = .pending → countStarts tr i = 0) ∧ countStarts tr i ≤ 1 := by
  induction hex with
  | refl => exact ⟨fun _ => by simp [countStarts], by simp [countStarts]⟩
  | tail hex' hs ih =>
    obtain ⟨ih1, ih2⟩ := ih
    rename_i trmid σmid e σcur
    cases hs with
    | start i0 hlen hpend hdeps =>
      by_cases hii : i0 = i
      · subst hii
        have hcnt : countStarts (trmid ++ [Ev.start i0]) i0 = countStarts trmid i0 + 1 := by
          simp [countStarts, List.count_append]
        rw [hcnt, ih1 hpend]
        refine ⟨fun hpd => ?_, by omega⟩
        rw [setStat_self] at hpd; cases hpd
      · have hcnt : countStarts (trmid ++ [Ev.start i0]) i = countStarts trmid i := by
          simp [countStarts, List.count_append, List.count_singleton]
          intro he; exact hii he
        rw [hcnt]
        exact ⟨fun hpd => ih1 (by rwa [setStat_ne σmid i0 _ (fun h => hii h.symm)] at hpd), ih2⟩
    | finishOk i0 hrun =>
      have hcnt : countStarts (trmid ++ [Ev.finishOk i0]) i = countStarts trmid i := by
        simp [countStarts, List.count_append, List.count_singleton]
      rw [hcnt]
      by_cases hii : i = i0
      · subst hii
        refine ⟨fun hpd => ?_, ih2⟩
        rw [setStat_self] at hpd; cases hpd
      · exact ⟨fun hpd => ih1 (by rwa [setStat_ne σmid i0 _ hii] at hpd), ih2⟩
    | fail i0 hrun =>
      have hcnt : countStarts (trmid ++ [Ev.fail i0]) i = countStarts trmid i := by
        simp [countStarts, List.count_append, List.count_singleton]
      rw [hcnt]
      by_cases hii : i = i0
      · subst hii
        refine ⟨fun hpd => ?_, ih2⟩
        rw [setStat_self] at hpd; cases hpd
      · exact ⟨fun hpd => ih1 (by rwa [setStat_ne σmid i0 _ hii] at hpd), ih2⟩

end Facade

namespace Facade

/-- Value invariant of the spec's example scenario: whenever the first
task has finished it holds `f(1) = 2`, and whenever the second has
finished it holds `g(2) = 4`. -/
theorem exampleGraph_values {tr : List Ev} {σ : StatusMap}
    (hex : ExecTr exampleGraph initStatus tr σ) :
    (∀ v, σ 0 = .finished v → v = 2) ∧ (∀ v, σ 1 = .finished v → v = 4) := by
  induction hex with
  | refl =>
    constructor <;> intro v h <;> simp [initStatus] at h
  | tail hex' hs ih =>
    rename_i trmid σmid e σcur
    cases hs with
    | start i0 hlen hpend hdeps =>
      constructor <;> intro v h
      · by_cases h0 : (0 : Nat) = i0
        · rw [← h0, setStat_self] at h; cases h
        · rw [setStat_ne σmid i0 _ h0] at h; exact ih.1 v h
      · by_cases h1 : (1 : Nat) = i0
        · rw [← h1, setStat_self] at h; cases h
        · rw [setStat_ne σmid i0 _ h1] at h; exact ih.2 v h
    | finishOk i0 hrun =>
      constructor <;> intro v h
      · by_cases h0 : (0 : Nat) = i0
        · rw [← h0, setStat_self] at h
          injection h with hv
          rw [← hv]
          rfl
        · rw [setStat_ne σmid i0 _ h0] at h; exact ih.1 v h
      · by_cases h1 : (1 : Nat) = i0
        · rw [← h1, setStat_self] at h
          injection h with hv
          rw [← hv]
          have hrun1 : σmid 1 = Status.running := by rw [h1]; exact hrun
          have hdep0 : isFinished (σmid 0) = true :=
            started_deps_finished hex' 1 (by rw [hrun1]; intro hh; cases hh) 0 (by decide)
          cases hσ0 : σmid 0 with
          | finished w =>
            have hw : w = 2 := ih.1 w hσ0
            show gTimesTwo [resolve σmid (Arg.handle 0)] = 4
            simp [gTimesTwo, resolve, hσ0, hw]
          | pending => rw [hσ0] at hdep0; cases hdep0
          | running => rw [hσ0] at hdep0; cases hdep0
          | failed => rw [hσ0] at hdep0; cases hdep0
        · rw [setStat_ne σmid i0 _ h1] at h; exact ih.2 v h
    | fail i0 hrun =>
      constructor <;> intro v h
      · by_cases h0 : (0 : Nat) = i0
        · rw [← h0, setStat_self] at h; cases h
        · rw [setStat_ne σmid i0 _ h0] at h; exact ih.1 v h
      · by_cases h1 : (1 : Nat) = i0
        · rw [← h1, setStat_self] at h; cases h
        · rw [setStat_ne σmid i0 _ h1] at h; exact ih.2 v h

end Facade

namespace Facade

/-- C1: for every dependency chain of tasks A, B, C submitted through
the façade (each later task receiving the handle of the previous one as
an argument, as in the gather→smooth→fft2→save pipeline), C never
begins executing before both A and B have finished successfully: at the
moment a start-step for C fires, A and B are both finished. -/
theorem claim_C1 {g : TaskGraph} {tr : List Ev} {σ σ2 : StatusMap} {a b c : Nat}
    (hex : ExecTr g initStatus tr σ)
    (hab : Arg.handle a ∈ argsOf g b) (hbc : Arg.handle b ∈ argsOf g c)
    (hstart : Step g σ (Ev.start c) σ2) :
    (∃ v, σ a = Status.finished v) ∧ (∃ v, σ b = Status.finished v) := by
  have hbdep : b ∈ depsOf g c := by
    simp only [depsOf, List.mem_filterMap]
    exact ⟨Arg.handle b, hbc, rfl⟩
  have hadep : a ∈ depsOf g b := by
    simp only [depsOf, List.mem_filterMap]
    exact ⟨Arg.handle a, hab, rfl⟩
  cases hstart with
  | start c hlen hpend hdeps =>
    have hbfin : isFinished (σ b) = true := hdeps b hbdep
    cases hσb : σ b with
    | finished w =>
      have hbne : σ b ≠ Status.pending := by rw [hσb]; intro hh; cases hh
      have hafin : isFinished (σ a) = true := started_deps_finished hex b hbne a hadep
      cases hσa : σ a with
      | finished u => exact ⟨⟨u, rfl⟩, ⟨w, rfl⟩⟩
      | pending => rw [hσa] at hafin; cases hafin
      | running => rw [hσa] at hafin; cases hafin
      | failed => rw [hσa] at hafin; cases hafin
    | pending => rw [hσb] at hbfin; cases hbfin
    | running => rw [hσb] at hbfin; cases hbfin
    | failed => rw [hσb] at hbfin; cases hbfin

/-- Witness for C1 on a concrete run of the pipeline graph: when task 2
is about to start, tasks 0 and 1 are finished. -/
theorem claim_C1_witness :
    (∃ v, pipeσd 0 = Status.finished v) ∧ (∃ v, pipeσd 1 = Status.finished v) := by
  have h1 : Step pipelineGraph initStatus (.start 0) pipeσa :=
    Step.start initStatus 0 (by decide) rfl (by decide)
  have h2 : Step pipelineGraph pipeσa (.finishOk 0) pipeσb :=
    Step.finishOk pipeσa 0 rfl
  have h3 : Step pipelineGraph pipeσb (.start 1) pipeσc :=
    Step.start pipeσb 1 (by decide) rfl (by decide)
  have h4 : Step pipelineGraph pipeσc (.finishOk 1) pipeσd :=
    Step.finishOk pipeσc 1 rfl
  have h5 : Step pipelineGraph pipeσd (.start 2) (setStat pipeσd 2 .running) :=
    Step.start pipeσd 2 (by decide) rfl (by decide)
  have hex : ExecTr pipelineGraph initStatus
      ((([] ++ [Ev.start 0]) ++ [Ev.finishOk 0]) ++ [Ev.start 1] ++ [Ev.finishOk 1]) pipeσd :=
    ExecTr.tail (ExecTr.tail (ExecTr.tail (ExecTr.tail (ExecTr.refl _) h1) h2) h3) h4
  exact claim_C1 hex (by decide) (by decide) h5

/-- C2: if a submitted task A fails, every task depending on A (directly
or transitively) is never executed (it is still pending), and `wait`
reports A as failed while reporting every sibling with its own status —
the report is a per-task total function, raising nothing on behalf of
tasks that had no dependency on A. -/
theorem claim_C2 {g : TaskGraph} {tr : List Ev} {σ : StatusMap} {a : Nat}
    (hex : ExecTr g initStatus tr σ) (hfail : σ a = Status.failed) :
    (∀ t, DependsOn g t a → σ t = Status.pending)
    ∧ (∀ S : List Nat, a ∈ S → (a, Status.failed) ∈ waitReport σ S)
    ∧ (∀ S : List Nat, ∀ s ∈ S, (s, σ s) ∈ waitReport σ S) := by
  refine ⟨?_, ?_, ?_⟩
  · intro t hdep
    induction hdep with
    | direct hj =>
      by_contra hne
      have hfin := started_deps_finished hex _ hne _ hj
      rw [hfail] at hfin; cases hfin
    | trans hj hdep ih =>
      by_contra hne
      have hfin := started_deps_finished hex _ hne _ hj
      rw [ih hfail] at hfin; cases hfin
  · intro S hS
    simp only [waitReport, List.mem_map]
    exact ⟨a, hS, by rw [hfail]⟩
  · intro S s hS
    simp only [waitReport, List.mem_map]
    exact ⟨s, hS, rfl⟩

/-- Witness for C2 on a concrete run where task 0 fails: the dependent
task 1 is still pending, `wait` over all three handles reports 0 as
failed, and the unrelated sibling 2 is reported with its own (finished)
status. -/
theorem claim_C2_witness :
    failσd 1 = Status.pending
    ∧ (0, Status.failed) ∈ waitReport failσd [0, 1, 2]
    ∧ (2, failσd 2) ∈ waitReport failσd [0, 1, 2] := by
  have h1 : Step failGraph initStatus (.start 0) failσa :=
    Step.start initStatus 0 (by decide) rfl (by decide)
  have h2 : Step failGraph failσa (.fail 0) failσb :=
    Step.fail failσa 0 rfl
  have h3 : Step failGraph failσb (.start 2) failσc :=
    Step.start failσb 2 (by decide) rfl (by decide)
  have h4 : Step failGraph failσc (.finishOk 2) failσd :=
    Step.finishOk failσc 2 rfl
  have hex : ExecTr failGraph initStatus
      ((([] ++ [Ev.start 0]) ++ [Ev.fail 0]) ++ [Ev.start 2] ++ [Ev.finishOk 2]) failσd :=
    ExecTr.tail (ExecTr.tail (ExecTr.tail (ExecTr.tail (ExecTr.refl _) h1) h2) h3) h4
  have h := claim_C2 hex (show failσd 0 = Status.failed from rfl)
  exact ⟨h.1 1 (DependsOn.direct (by decide)), h.2.1 [0, 1, 2] (by decide),
    h.2.2 [0, 1, 2] 2 (by decide)⟩

/-- C6: submitting `f(x) = x + 1` with input 1, then `g(y) = y * 2` with
the first handle as argument, any wait that observes the second task
finished observes the value 4. -/
theorem claim_C6 {tr : List Ev} {σ : StatusMap} {v : Int}
    (hex : ExecTr exampleGraph initStatus tr σ)
    (hfin : σ subG.2 = Status.finished v) : v = 4 :=
  (exampleGraph_values hex).2 v hfin

/-- Witness for C6: a concrete complete run of the example graph ends
with the second task finished, and the claim yields its value 4. -/
theorem claim_C6_witness : (4 : Int) = 4 := by
  have h1 : Step exampleGraph initStatus (.start 0) (setStat initStatus 0 .running) :=
    Step.start initStatus 0 (by decide) rfl (by decide)
  have h2 : Step exampleGraph (setStat initStatus 0 .running) (.finishOk 0)
      (setStat (setStat initStatus 0 .running) 0
        (.finished (fnOf exampleGraph 0 ((argsOf exampleGraph 0).map
          (resolve (setStat initStatus 0 .running)))))) :=
    Step.finishOk _ 0 rfl
  set σb := setStat (setStat initStatus 0 .running) 0
      (.finished (fnOf exampleGraph 0 ((argsOf exampleGraph 0).map
        (resolve (setStat initStatus 0 .running))))) with hσb
  have h3 : Step exampleGraph σb (.start 1) (setStat σb 1 .running) :=
    Step.start σb 1 (by decide) rfl (by decide)
  have h4 : Step exampleGraph (setStat σb 1 .running) (.finishOk 1)
      (setStat (setStat σb 1 .running) 1
        (.finished (fnOf exampleGraph 1 ((argsOf exampleGraph 1).map
          (resolve (setStat σb 1 .running)))))) :=
    Step.finishOk _ 1 rfl
  have hex : ExecTr exampleGraph initStatus
      ((([] ++ [Ev.start 0]) ++ [Ev.finishOk 0]) ++ [Ev.start 1] ++ [Ev.finishOk 1])
      (setStat (setStat σb 1 .running) 1
        (.finished (fnOf exampleGraph 1 ((argsOf exampleGraph 1).map
          (resolve (setStat σb 1 .running)))))) :=
    ExecTr.tail (ExecTr.tail (ExecTr.tail (ExecTr.tail (ExecTr.refl _) h1) h2) h3) h4
  exact claim_C6 hex (by decide)

end Facade

namespace Facade

/-- Looking up the first freshly appended element. -/
theorem getD_append_len {α : Type} (l : List α) (x y d : α) :
    ((l ++ [x]) ++ [y]).getD l.length d = x := by
  induction l with
  | nil => rfl
  | cons a l ih => simpa using ih

/-- Looking up the second freshly appended element. -/
theorem getD_append_len_succ {α : Type} (l : List α) (x y d : α) :
    ((l ++ [x]) ++ [y]).getD (l.length + 1) d = y := by
  induction l with
  | nil => rfl
  | cons a l ih => simpa using ih

/-- C4: submitting the same function with the same argument list twice
produces two distinct Task handles backed by two separate graph entries
(no implicit memoization), and along any execution each of the two
handles is started — hence executed — at most once. -/
theorem claim_C4 (g0 : TaskGraph) (f : List Int → Int) (a : List Arg) :
    (submit g0 f a).2 ≠ (submit (submit g0 f a).1 f a).2
    ∧ ((submit (submit g0 f a).1 f a).1).getD (submit g0 f a).2 defaultTask = ⟨f, a⟩
    ∧ ((submit (submit g0 f a).1 f a).1).getD (submit (submit g0 f a).1 f a).2 defaultTask = ⟨f, a⟩
    ∧ ∀ tr σ, ExecTr (submit (submit g0 f a).1 f a).1 initStatus tr σ →
        countStarts tr (submit g0 f a).2 ≤ 1
        ∧ countStarts tr (submit (submit g0 f a).1 f a).2 ≤ 1 := by
  refine ⟨?_, ?_, ?_, ?_⟩
  · simp only [submit, List.length_append, List.length_cons, List.length_nil]
    omega
  · simpa [submit] using getD_append_len g0 ⟨f, a⟩ ⟨f, a⟩ defaultTask
  · simpa [submit] using getD_append_len_succ g0 ⟨f, a⟩ ⟨f, a⟩ defaultTask
  · intro tr σ hex
    exact ⟨(countStarts_le_one hex _ rfl).2, (countStarts_le_one hex _ rfl).2⟩

/-- Witness for C4 at a concrete function and empty argument list. -/
theorem claim_C4_witness :
    (submit ([] : TaskGraph) (fun _ => (5 : Int)) []).2
      ≠ (submit (submit ([] : TaskGraph) (fun _ => (5 : Int)) []).1 (fun _ => (5 : Int)) []).2
    ∧ countStarts [] (submit ([] : TaskGraph) (fun _ => (5 : Int)) []).2 ≤ 1 := by
  have h := claim_C4 [] (fun _ => (5 : Int)) []
  exact ⟨h.1, (h.2.2.2 [] initStatus (ExecTr.refl _)).1⟩

/-- C7: `fire_and_forget(T)` returns at once as a pure function of the
caller state, independent of T's eventual outcome (it never reads any
status); the graph, hence the set of possible scheduler steps, is
untouched, so T still runs to completion; T is retained in the detached
set; any status change of T leaves the `wait` report of a set of tasks
not containing T unchanged; and the report never mentions T, so T's
result and errors are surfaced to no caller. -/
theorem claim_C7 (cs : ClientState) (t : Nat) :
    (fire_and_forget cs t).graph = cs.graph
    ∧ (fire_and_forget cs t).tracked = cs.tracked.erase t
    ∧ t ∈ (fire_and_forget cs t).detached
    ∧ (∀ σ e σ2, Step (fire_and_forget cs t).graph σ e σ2 ↔ Step cs.graph σ e σ2)
    ∧ (∀ (g : TaskGraph) σ e σ2, Step g σ e σ2 → evTask e = t →
        ∀ S : List Nat, t ∉ S → waitReport σ2 S = waitReport σ S)
    ∧ (∀ σ (S : List Nat), t ∉ S → ∀ pr ∈ waitReport σ S, pr.1 ≠ t) := by
  refine ⟨rfl, rfl, List.mem_cons_self _ _, fun σ e σ2 => Iff.rfl, ?_, ?_⟩
  · intro g σ e σ2 hs hev S hS
    unfold waitReport
    apply List.map_congr_left
    intro i hi
    have hit : i ≠ evTask e := by
      rw [hev]; intro he; exact hS (he ▸ hi)
    rw [step_other hs hit]
  · intro σ S hS pr hpr
    simp only [waitReport, List.mem_map] at hpr
    obtain ⟨i, hi, rfl⟩ := hpr
    intro he; exact hS (he ▸ hi)

/-- Witness for C7: detaching task 0 of the pipeline graph leaves the
graph unchanged and retains the handle, and a concrete status step on
task 0 leaves the report of the other three handles unchanged. -/
theorem claim_C7_witness :
    (fire_and_forget ⟨pipelineGraph, [0, 1, 2, 3], []⟩ 0).graph = pipelineGraph
    ∧ 0 ∈ (fire_and_forget ⟨pipelineGraph, [0, 1, 2, 3], []⟩ 0).detached
    ∧ waitReport (setStat initStatus 0 .running) [1, 2, 3] = waitReport initStatus [1, 2, 3] := by
  have h := claim_C7 ⟨pipelineGraph, [0, 1, 2, 3], []⟩ 0
  refine ⟨h.1, h.2.2.1, ?_⟩
  exact h.2.2.2.2.1 pipelineGraph initStatus (.start 0) (setStat initStatus 0 .running)
    (Step.start initStatus 0 (by decide) rfl (by decide)) rfl [1, 2, 3] (by decide)

end Facade

namespace Taxi

/-- Selecting by the mask `map q` is filtering by `q`. -/
theorem maskSelect_map_eq_filter {α : Type} (q : α → Bool) (l : List α) :
    maskSelect l (l.map q) = l.filter q := by
  induction l with
  | nil => rfl
  | cons a l ih =>
    by_cases h : q a <;> simp [maskSelect, List.filter_cons, h, ih]

/-- `drop_empty_partitions` keeps exactly the partitions with at least
one row, in their original order. -/
theorem drop_empty_eq_filter (df : DDF) :
    drop_empty_partitions df = df.filter (fun p => decide (0 < p.length)) := by
  show maskSelect df ((df.map List.length).map (fun l => decide (0 < l)))
      = df.filter (fun p => decide (0 < p.length))
  rw [List.map_map]
  exact maskSelect_map_eq_filter _ df

end Taxi

/-- C3 (amended): `drop_empty_partitions(df)` returns the sub-dataframe
consisting exactly of `df`'s partitions with length greater than zero,
in their original order, and the test dataframe handed to
`dxgb_gpu.predict` is so filtered — every partition of `X_test` is
non-empty.  (The training dataframe handed to `dxgb_gpu.train` is NOT
filtered; see the counterexample.) -/
theorem claim_C3 (df : Taxi.DDF) :
    Taxi.drop_empty_partitions df = df.filter (fun p => decide (0 < p.length))
    ∧ ∀ p ∈ Taxi.X_test_input df, 0 < p.length := by
  refine ⟨Taxi.drop_empty_eq_filter df, ?_⟩
  intro p hp
  unfold Taxi.X_test_input at hp
  rw [Taxi.drop_empty_eq_filter] at hp
  exact of_decide_eq_true (List.mem_filter.mp hp).2

/-- C3 counterexample: for the one-partition dataframe whose single row
has `day = 25`, the training dataframe `X_train = taxi_df.query('day < 25')`
handed to `dxgb_gpu.train` still contains an empty partition — no
empty-partition dropping happens on the training path, as
`drop_empty_partitions` applied to it shows. -/
theorem claim_C3_cex :
    Taxi.X_train_input [[25]] = [[]]
    ∧ (∃ p ∈ Taxi.X_train_input [[25]], p.length = 0)
    ∧ Taxi.drop_empty_partitions (Taxi.X_train_input [[25]]) ≠ Taxi.X_train_input [[25]] := by
  decide

namespace Taxi

/-- Downcasting a dtype that contains `'int'` yields `int32`. -/
theorem downcast32_of_int {dt : String} (h : containsStr dt "int" = true) :
    downcast32 dt = "int32" := by
  unfold downcast32
  simp only [h, if_true]
  decide

/-- Downcasting a dtype that contains `'float'` but not `'int'` yields
`float32`. -/
theorem downcast32_of_float {dt : String} (hni : containsStr dt "int" = false)
    (hf : containsStr dt "float" = true) : downcast32 dt = "float32" := by
  unfold downcast32
  simp [hni, hf]

end Taxi

open Taxi in
/-- C8 (amended): for every input dataframe partition whose columns
arrive with the dtypes the CSV reader produces — datetime columns as
`object`, every other column as `object` or with a dtype containing
`'int'` or `'float'` — every column of `clean(df_part, remap, must_haves)`
comes from a renamed input column, its name is a key of `must_haves`,
the `pickup_datetime` and `dropoff_datetime` columns have dtype
`datetime64[ms]`, every other remaining column has dtype `int32` or
`float32`, and its data is the source column's data with every null
replaced by `-1` (the fill `fillCell "-1"` and nothing else).  (Without
the dtype proviso the claim fails: a non-`object` datetime column keeps
its incoming dtype; see the counterexample.) -/
theorem claim_C8 (df : DFPart)
    (hdt : ∀ c ∈ renamedCols df remap,
        ((c.name = "pickup_datetime" ∨ c.name = "dropoff_datetime") → c.dtype = "object")
        ∧ (c.dtype = "object" ∨ containsStr c.dtype "int" = true
            ∨ containsStr c.dtype "float" = true)) :
    ∀ c ∈ clean df remap must_haves,
      ∃ c1 ∈ renamedCols df remap,
        c.name = c1.name
        ∧ (must_haves.lookup c.name).isSome = true
        ∧ ((c.name = "pickup_datetime" ∨ c.name = "dropoff_datetime") →
            c.dtype = "datetime64[ms]")
        ∧ (¬(c.name = "pickup_datetime" ∨ c.name = "dropoff_datetime") →
            (c.dtype = "int32" ∨ c.dtype = "float32"))
        ∧ (¬(c.name = "pickup_datetime" ∨ c.name = "dropoff_datetime") →
            c.data = c1.data.map (fillCell "-1")) := by
  intro c hc
  unfold clean at hc
  rw [List.mem_filterMap] at hc
  obtain ⟨c1, hc1, hproc⟩ := hc
  have hd := hdt c1 hc1
  refine ⟨c1, hc1, ?_⟩
  unfold processCol at hproc
  by_cases hmh : (must_haves.lookup c1.name).isNone
  · rw [if_pos hmh] at hproc; cases hproc
  · rw [if_neg hmh] at hproc
    have hsome : (must_haves.lookup c1.name).isSome = true := by
      cases hl : must_haves.lookup c1.name with
      | none => rw [hl] at hmh; exact absurd rfl hmh
      | some _ => rfl
    by_cases hdtb : c1.dtype = "object"
        ∧ (c1.name = "pickup_datetime" ∨ c1.name = "dropoff_datetime")
    · rw [if_pos hdtb] at hproc
      injection hproc with hcc
      subst hcc
      exact ⟨rfl, hsome, fun _ => rfl, fun hn => absurd hdtb.2 hn, fun hn => absurd hdtb.2 hn⟩
    · rw [if_neg hdtb] at hproc
      by_cases hobj : c1.dtype = "object"
      · rw [if_pos hobj] at hproc
        injection hproc with hcc
        subst hcc
        have hnd : ¬(c1.name = "pickup_datetime" ∨ c1.name = "dropoff_datetime") :=
          fun hn => hdtb ⟨hobj, hn⟩
        exact ⟨rfl, hsome, fun hn => absurd hn hnd, fun _ => Or.inr rfl, fun _ => rfl⟩
      · rw [if_neg hobj] at hproc
        injection hproc with hcc
        subst hcc
        have hif : containsStr c1.dtype "int" = true ∨ containsStr c1.dtype "float" = true := by
          rcases hd.2 with h | h | h
          · exact absurd h hobj
          · exact Or.inl h
          · exact Or.inr h
        have hnd : ¬(c1.name = "pickup_datetime" ∨ c1.name = "dropoff_datetime") :=
          fun hn => hobj (hd.1 hn)
        refine ⟨rfl, hsome, fun hn => absurd hn hnd, fun _ => ?_, fun _ => rfl⟩
        by_cases hci : containsStr c1.dtype "int" = true
        · exact Or.inl (downcast32_of_int hci)
        · have hcif : containsStr c1.dtype "int" = false :=
            Bool.eq_false_iff.mpr hci
          exact Or.inr (downcast32_of_float hcif (hif.resolve_left hci))

/-- C8 counterexample: a `pickup_datetime` column that arrives with a
non-`object` dtype (`datetime64[ns]`) survives `clean` with its dtype
unchanged — not `datetime64[ms]` as the claim states for every input
partition. -/
theorem claim_C8_cex :
    ∃ c ∈ Taxi.clean [⟨"pickup_datetime", "datetime64[ns]", []⟩] Taxi.remap Taxi.must_haves,
      c.name = "pickup_datetime" ∧ c.dtype ≠ "datetime64[ms]" := by
  decide

/-- Witness for C8 on a concrete four-column partition (space-padded
mixed-case datetime header read as `object`, an `int64` column with a
null, a `float64` column, and a column that is not in `must_haves`):
the cleaned `passenger_count` column comes from its renamed source
column, is downcast to `int32`, and its data is the source data with
the null replaced by `-1`. -/
theorem claim_C8_witness :
    ∃ c1 ∈ Taxi.renamedCols [⟨" Tpep_Pickup_DateTime", "object", [some "a", none]⟩,
        ⟨"Passenger_Count", "int64", [none, some "1"]⟩,
        ⟨"Fare_Amount", "float64", [some "4.5"]⟩,
        ⟨"Surcharge", "float64", [some "0.5"]⟩] Taxi.remap,
      (Taxi.Column.mk "passenger_count" "int32" [some "-1", some "1"]).name = c1.name
      ∧ (Taxi.must_haves.lookup (Taxi.Column.mk "passenger_count" "int32"
            [some "-1", some "1"]).name).isSome = true
      ∧ (((Taxi.Column.mk "passenger_count" "int32" [some "-1", some "1"]).name
            = "pickup_datetime"
          ∨ (Taxi.Column.mk "passenger_count" "int32" [some "-1", some "1"]).name
            = "dropoff_datetime") →
          (Taxi.Column.mk "passenger_count" "int32" [some "-1", some "1"]).dtype
            = "datetime64[ms]")
      ∧ (¬((Taxi.Column.mk "passenger_count" "int32" [some "-1", some "1"]).name
            = "pickup_datetime"
          ∨ (Taxi.Column.mk "passenger_count" "int32" [some "-1", some "1"]).name
            = "dropoff_datetime") →
          ((Taxi.Column.mk "passenger_count" "int32" [some "-1", some "1"]).dtype = "int32"
          ∨ (Taxi.Column.mk "passenger_count" "int32" [some "-1", some "1"]).dtype
            = "float32"))
      ∧ (¬((Taxi.Column.mk "passenger_count" "int32" [some "-1", some "1"]).name
            = "pickup_datetime"
          ∨ (Taxi.Column.mk "passenger_count" "int32" [some "-1", some "1"]).name
            = "dropoff_datetime") →
          (Taxi.Column.mk "passenger_count" "int32" [some "-1", some "1"]).data
            = c1.data.map (Taxi.fillCell "-1")) := by
  have h := claim_C8 [⟨" Tpep_Pickup_DateTime", "object", [some "a", none]⟩,
      ⟨"Passenger_Count", "int64", [none, some "1"]⟩,
      ⟨"Fare_Amount", "float64", [some "4.5"]⟩,
      ⟨"Surcharge", "float64", [some "0.5"]⟩] (by decide)
  exact h ⟨"passenger_count", "int32", [some "-1", some "1"]⟩ (by decide)

namespace Taxi

/-- Every element of the kernel loop's output is the per-row body
applied to some zipped input triple. -/
theorem mem_zip3Map {f : Int → Int → Int → Int} {v : Int} :
    ∀ (as bs cs : List Int), v ∈ zip3Map f as bs cs → ∃ a b c, v = f a b c := by
  intro as
  induction as with
  | nil => intro bs cs h; simp [zip3Map] at h
  | cons a as ih =>
    intro bs cs h
    cases bs with
    | nil => simp [zip3Map] at h
    | cons b bs =>
      cases cs with
      | nil => simp [zip3Map] at h
      | cons c cs =>
        rw [show zip3Map f (a :: as) (b :: bs) (c :: cs) = f a b c :: zip3Map f as bs cs
          from rfl, List.mem_cons] at h
        rcases h with h | h
        · exact ⟨a, b, c, h⟩
        · exact ih bs cs h

end Taxi

open Taxi in
/-- C10: for every input arrays `day`, `month`, `year`,
`day_of_the_week_kernel` writes into every element of its `day_of_week`
output a value in `{0, 1, 2, 3, 4, 5, 6}` — the final modulo-7
reduction always lands in that range, including for inputs that make
the intermediate sum negative — so the derived `is_weekend` flag in
`add_features` is always 0 or 1. -/
theorem claim_C10 (day month year : List Int) :
    ∀ v ∈ day_of_the_week_kernel day month year,
      (0 ≤ v ∧ v < 7) ∧ v ∈ ([0, 1, 2, 3, 4, 5, 6] : List Int)
      ∧ (is_weekend v = 0 ∨ is_weekend v = 1) := by
  intro v hv
  obtain ⟨a, b, c, rfl⟩ := mem_zip3Map day month year hv
  have h0 : 0 ≤ day_of_the_week a b c := Int.emod_nonneg _ (by norm_num)
  have h7 : day_of_the_week a b c < 7 := Int.emod_lt_of_pos _ (by norm_num)
  refine ⟨⟨h0, h7⟩, ?_, ?_⟩
  · simp only [List.mem_cons, List.not_mem_nil, or_false]
    omega
  · unfold is_weekend
    split
    · exact Or.inr rfl
    · exact Or.inl rfl

/-- Witness for C10 at `day = 15`, `month = 1`, `year = 1999`: the
intermediate sum is `-16`, and the kernel output is still in range with
an `is_weekend` flag of 0 or 1. -/
theorem claim_C10_witness :
    (0 ≤ Taxi.day_of_the_week 15 1 1999 ∧ Taxi.day_of_the_week 15 1 1999 < 7)
    ∧ Taxi.day_of_the_week 15 1 1999 ∈ ([0, 1, 2, 3, 4, 5, 6] : List Int)
    ∧ (Taxi.is_weekend (Taxi.day_of_the_week 15 1 1999) = 0
        ∨ Taxi.is_weekend (Taxi.day_of_the_week 15 1 1999) = 1) :=
  claim_C10 [15] [1] [1999] (Taxi.day_of_the_week 15 1 1999) (by decide)

open Streaming in
/-- C9 (amended): for every 2-D input of shape `(n, m)`, `smooth` writes
only the interior elements (`1 ≤ i < n - 1`, `1 ≤ j < m - 1`) of its
output, each with the floor of the 3×3 neighbourhood sum divided by 9
(the kernel's `// 9` is floor division, not the exact average — see the
counterexample); the border elements retain whatever values the
uninitialized `empty_like` allocation held. -/
theorem claim_C9 (n m : Nat) (x alloc : Nat → Nat → ℚ) (i j : Nat) :
    (¬(1 ≤ i ∧ i < n - 1 ∧ 1 ≤ j ∧ j < m - 1) → smooth n m x alloc i j = alloc i j)
    ∧ ((1 ≤ i ∧ i < n - 1 ∧ 1 ≤ j ∧ j < m - 1) →
        smooth n m x alloc i j = ((⌊sum9 x i j / 9⌋ : ℤ) : ℚ)) := by
  constructor <;> intro h <;> simp [smooth, smooth_gpu, h]

/-- C9 counterexample: on the constant matrix with value 1/2, the
kernel writes 0 into the interior cell (1,1) while the exact 3×3
neighbourhood average is 1/2 — the written value is not the
neighbourhood average. -/
theorem claim_C9_cex :
    Streaming.smooth 3 3 (fun _ _ => (1 : ℚ)/2) (fun _ _ => 7) 1 1 = 0
    ∧ Streaming.neighborhoodAverage (fun _ _ => (1 : ℚ)/2) 1 1 = 1/2
    ∧ (0 : ℚ) ≠ 1/2 := by
  refine ⟨?_, ?_, by norm_num⟩
  · norm_num [Streaming.smooth, Streaming.smooth_gpu, Streaming.sum9]
  · norm_num [Streaming.neighborhoodAverage, Streaming.sum9]

/-- Witness for C9 on a concrete 3×3 array: the border cell (0,0)
keeps the allocation's value 9, and the interior cell (1,1) receives
the floored value. -/
theorem claim_C9_witness :
    Streaming.smooth 3 3 (fun _ _ => (2 : ℚ)) (fun _ _ => 9) 0 0 = 9
    ∧ Streaming.smooth 3 3 (fun _ _ => (2 : ℚ)) (fun _ _ => 9) 1 1
        = ((⌊Streaming.sum9 (fun _ _ => (2 : ℚ)) 1 1 / 9⌋ : ℤ) : ℚ) := by
  have h0 := claim_C9 3 3 (fun _ _ => (2 : ℚ)) (fun _ _ => 9) 0 0
  have h1 := claim_C9 3 3 (fun _ _ => (2 : ℚ)) (fun _ _ => 9) 1 1
  exact ⟨h0.1 (by decide), h1.2 (by decide)⟩

namespace Persist

/-- The sign-interleaving byte encoding is inverted by its decoder. -/
theorem decInt_encInt (z : Int) : decInt (encInt z) = z := by
  unfold decInt encInt
  split_ifs <;> omega

/-- Unpickling a pickled model yields the model back. -/
theorem dill_round_trip (m : Model) : dill_load (dill_dump m) = m := by
  unfold dill_load dill_dump
  cases m with
  | mk params =>
    congr 1
    rw [List.map_map]
    have hid : decInt ∘ encInt = id := funext fun z => decInt_encInt z
    rw [hid, List.map_id]

/-- Reading back the path just written returns the written bytes. -/
theorem fsRead_fsWrite (fs : ObjectStore) (p : String) (bs : List Nat) :
    fsRead (fsWrite fs p bs) p = bs := by
  simp [fsRead, fsWrite, List.lookup]

end Persist

open Persist in
/-- C5: serializing the trained model to the object-storage location and
deserializing from the same location is a round-trip; for any predictor
the external trainer provides, predicting over the same test set with
the reloaded model yields the same predictions, hence the same squared
errors and the same mean squared error — and therefore the same
root-mean-squared error, which is its square root. -/
theorem claim_C5 {α : Type} (fs : ObjectStore) (m : Model)
    (predict : Model → α → List ℚ) (X : α) (fares : List ℚ) :
    load_trained_model (save_trained_model fs m) = m
    ∧ predict (load_trained_model (save_trained_model fs m)) X = predict m X
    ∧ squared_errors (predict (load_trained_model (save_trained_model fs m)) X) fares
        = squared_errors (predict m X) fares
    ∧ mean_squared_error (predict (load_trained_model (save_trained_model fs m)) X) fares
        = mean_squared_error (predict m X) fares := by
  have hrt : load_trained_model (save_trained_model fs m) = m := by
    unfold load_trained_model save_trained_model
    rw [fsRead_fsWrite]
    exact dill_round_trip m
  refine ⟨hrt, ?_, ?_, ?_⟩ <;> rw [hrt]

/-- Witness for the amended C3 on a concrete three-partition dataframe:
the filter equation holds and the single surviving test partition is
non-empty. -/
theorem claim_C3_witness :
    Taxi.drop_empty_partitions [[25], [], [1]]
        = List.filter (fun p => decide (0 < p.length)) [[25], [], [1]]
    ∧ 0 < List.length [(25 : Int)] := by
  have h := claim_C3 [[25], [], [1]]
  exact ⟨h.1, h.2 [25] (by decide)⟩
